import Mathlib

/-!
Shallow embedding of `src/apptrace/instruments.py`.

The module has three parts, embedded here from the source:

* a JSON codec (`JSONSerializable.EncodeJSON` / `FromJSON`, specialised by
  `Record` / `RecordEntry`): serialized documents are modelled by the `JSON`
  abstract syntax tree; the external `simplejson` library's `dumps`/`loads`
  pair is treated as the identity on that tree, with an unparseable input
  text modelled as the `none` case of `Option JSON`;
* the snapshot collector (`Recorder.trace`): Python's `sys.modules` and the
  per-module `__dict__` are modelled as association lists (real dicts have
  distinct keys); the external heap inspector is modelled by the `domisize`
  field carried by each object; Python's `sorted` on `str` is code-point
  lexicographic order, embedded as `pyStrLe` and Mathlib's `insertionSort`
  (on distinct keys every correct sort returns the same list);
* the memcache-backed store (`Recorder.trace` tail, `get_raw_records`,
  `get_records`): the cache is a counter (the value at `INDEX_KEY`) plus an
  association list of record keys; `memcache.add` / `incr` are assumed
  atomic and are executed sequentially, as the claims under scrutiny do;
  the cache operations a retrieval performs are logged in a `CacheOp` list
  so that "no multi-key read happened" is a statement about the model.

Python's `KeyError` on `records[key]` is modelled by `RecErr.missingSnapshot`
(the spec's `MissingSnapshotError`), and the exceptions raised while decoding
by `CodecErr.parseError` / `CodecErr.schemaError`.
-/

/-- A parsed JSON document (the output of `simplejson.loads`).  Objects are
association lists; a genuine parse never produces duplicate keys. -/
inductive JSON where
  | str (s : String)
  | int (n : Int)
  | arr (items : List JSON)
  | obj (fields : List (String × JSON))

/-- `RecordEntry` from the source.  The constructor performs no type checks,
so a decoded entry can carry a field of any JSON shape; the fields are
therefore dynamically typed, as in Python. -/
structure RecordEntry where
  module_name : JSON
  name : JSON
  obj_type : JSON
  dominated_size : JSON

/-- The value of `Record.entries` after construction or decoding: either a
list of `RecordEntry` (the list branch of `Record.make_value`) or the raw
JSON value kept unchanged when it is not a list. -/
inductive EntriesVal where
  | raw (j : JSON)
  | entriesList (es : List RecordEntry)

/-- `Record` from the source: a snapshot. -/
structure Record where
  entries : EntriesVal

/-- Codec failures: `parseError` models `simplejson.loads` raising on invalid
text, `schemaError` models the `TypeError`s raised when the parsed data does
not fit the `Record` / `RecordEntry` constructors. -/
inductive CodecErr where
  | parseError
  | schemaError
deriving DecidableEq

/-- Left-to-right effectful map over `Except`, stopping at the first error:
the behaviour of a Python list comprehension whose body can raise. -/
def mapExcept {α β ε : Type} (f : α → Except ε β) : List α → Except ε (List β)
  | [] => Except.ok []
  | a :: l =>
    match f a with
    | Except.error e => Except.error e
    | Except.ok b =>
      match mapExcept f l with
      | Except.error e => Except.error e
      | Except.ok bs => Except.ok (b :: bs)

/-- `eval(repr(entry))` inside `Record.get_value`: a `RecordEntry` becomes a
plain dict of its four fields. -/
def RecordEntry.reprJSON (e : RecordEntry) : JSON :=
  JSON.obj [("module_name", e.module_name), ("name", e.name),
            ("obj_type", e.obj_type), ("dominated_size", e.dominated_size)]

/-- `Record.get_value`: a list of entries is turned into a list of dicts;
any other value is returned unchanged. -/
def Record.get_value : EntriesVal → JSON
  | EntriesVal.raw j => j
  | EntriesVal.entriesList es => JSON.arr (es.map RecordEntry.reprJSON)

/-- `Record.EncodeJSON`: `simplejson.dumps(eval(repr(self)))`, i.e. the
document with the single field `entries`. -/
def Record.EncodeJSON (r : Record) : JSON :=
  JSON.obj [("entries", Record.get_value r.entries)]

/-- `JSONSerializable.make_args`: iterating a dict yields its key/value
pairs; iterating any non-dict value raises (collapsed to `schemaError`). -/
def make_args : JSON → Except CodecErr (List (String × JSON))
  | JSON.obj kvs => Except.ok kvs
  | _ => Except.error CodecErr.schemaError

/-- `RecordEntry(**args)`: keyword construction succeeds exactly when the
keys are the four required field names (a missing or unexpected keyword is a
`TypeError`, collapsed to `schemaError`); the values are not type checked. -/
def mkRecordEntry (kvs : List (String × JSON)) : Except CodecErr RecordEntry :=
  match kvs.lookup "module_name", kvs.lookup "name",
        kvs.lookup "obj_type", kvs.lookup "dominated_size" with
  | some m, some nm, some t, some d =>
    if kvs.length == 4 then Except.ok ⟨m, nm, t, d⟩
    else Except.error CodecErr.schemaError
  | _, _, _, _ => Except.error CodecErr.schemaError

/-- One item of the `entries` list inside `Record.make_value`:
`RecordEntry(**super(Record, C).make_args(item))`. -/
def decodeEntryJSON (it : JSON) : Except CodecErr RecordEntry :=
  match make_args it with
  | Except.error e => Except.error e
  | Except.ok kvs => mkRecordEntry kvs

/-- `Record.make_value`: a list is mapped to `RecordEntry` values; any
non-list value is kept as-is (no error). -/
def Record.make_value : JSON → Except CodecErr EntriesVal
  | JSON.arr items =>
    match mapExcept decodeEntryJSON items with
    | Except.error e => Except.error e
    | Except.ok es => Except.ok (EntriesVal.entriesList es)
  | v => Except.ok (EntriesVal.raw v)

/-- `Record.FromJSON` applied to already-parsed data:
`Record(**dict([(str(k), make_value(data[k])) for k in data]))`.  Keyword
construction of `Record` succeeds exactly when the parsed document is a dict
whose only key is `entries`; every other parsed shape raises (collapsed to
`schemaError`). -/
def Record.FromJSONDoc : JSON → Except CodecErr Record
  | JSON.obj [(k, v)] =>
    if k = "entries" then
      match Record.make_value v with
      | Except.error e => Except.error e
      | Except.ok ev => Except.ok ⟨ev⟩
    else Except.error CodecErr.schemaError
  | _ => Except.error CodecErr.schemaError

/-- `Record.FromJSON` on input text: `none` stands for text that
`simplejson.loads` rejects (`parseError`); otherwise the parsed document is
decoded. -/
def Record.FromJSON : Option JSON → Except CodecErr Record
  | none => Except.error CodecErr.parseError
  | some j => Record.FromJSONDoc j

/-- The JSON value is a string. -/
def isStrVal : JSON → Bool
  | JSON.str _ => true
  | _ => false

/-- The JSON value is a non-negative integer. -/
def isNonnegIntVal : JSON → Bool
  | JSON.int n => decide (0 ≤ n)
  | _ => false

/-- A well-formed entry: string `module_name`, `name`, `obj_type` and a
non-negative integer `dominated_size`. -/
def validEntry (e : RecordEntry) : Bool :=
  isStrVal e.module_name && isStrVal e.name && isStrVal e.obj_type &&
    isNonnegIntVal e.dominated_size

/-- A valid snapshot: a `Record` whose entries are a list of well-formed
`RecordEntry` values. -/
def validSnapshot (r : Record) : Bool :=
  match r.entries with
  | EntriesVal.entriesList es => es.all validEntry
  | EntriesVal.raw _ => false

/-- Modelled from the spec's amended schema condition: the parsed item is a
dict with exactly the four required field names (values unchecked). -/
def entryShapeOK : JSON → Bool
  | JSON.obj kvs =>
    (kvs.lookup "module_name").isSome && (kvs.lookup "name").isSome &&
      (kvs.lookup "obj_type").isSome && (kvs.lookup "dominated_size").isSome &&
      (kvs.length == 4)
  | _ => false

/-- Modelled from the spec's amended schema condition for the whole parsed
document: a dict whose only key is `entries`; when the `entries` value is a
list, every item must satisfy `entryShapeOK`; a non-list value is accepted
as-is. -/
def schemaOK : JSON → Bool
  | JSON.obj [(k, v)] =>
    (k = "entries") &&
      (match v with
       | JSON.arr items => items.all entryShapeOK
       | _ => true)
  | _ => false

/-- Python code-point comparison of character lists (`str` ordering). -/
def charListLe : List Char → List Char → Bool
  | [], _ => true
  | _ :: _, [] => false
  | a :: as, b :: bs =>
    if a.toNat < b.toNat then true
    else if b.toNat < a.toNat then false
    else charListLe as bs

/-- Python `str` comparison: code-point lexicographic order. -/
def pyStrLe (a b : String) : Bool := charListLe a.data b.data

/-- `pyStrLe` as a relation, for use with `List.insertionSort`. -/
def pyStrLeP (a b : String) : Prop := pyStrLe a b = true

instance : DecidableRel pyStrLeP :=
  fun a b => instDecidableEqBool (pyStrLe a b) true

/-- A live Python object as the collector sees it: the display name of its
runtime type and the dominated size reported by the external heap
inspector. -/
structure PyObj where
  typeName : String
  domisize : Int

/-- The relevant parts of a `middleware.Config` instance (an external
collaborator): the cache key names, the ordered module list and the
ignore-set. -/
structure Config where
  INDEX_KEY : String
  RECORD_PREFIX : String
  modules : List String
  IGNORE_NAMES : List String

/-- `config.get_modules()`. -/
def Config.get_modules (cfg : Config) : List String := cfg.modules

/-- The interpreter state the collector reads: `sys.modules`, each module
carrying its `__dict__` as an association list. -/
structure Env where
  sys_modules : List (String × List (String × PyObj))

/-- `obj_keys = sorted(set(module_dict.keys()) - set(IGNORE_NAMES))`:
distinct keys minus the ignore-set, in ascending code-point order
(`dedup` and `filter` build the set difference; since the elements are
distinct, the ascending sort is the unique sorted arrangement, the same
list Python's `sorted` returns). -/
def moduleKeys (cfg : Config) (module_dict : List (String × PyObj)) :
    List String :=
  List.insertionSort pyStrLeP
    (((module_dict.map Prod.fst).dedup).filter
      (fun k => decide (k ∉ cfg.IGNORE_NAMES)))

/-- The body of the outer loop of `Recorder.trace` for one module name:
skip when not loaded, otherwise one entry per sorted non-ignored attribute
key (`module_dict[key]` always succeeds since the key comes from the dict,
hence the `filterMap` never drops anything). -/
def moduleEntries (cfg : Config) (env : Env) (name : String) : List RecordEntry :=
  match env.sys_modules.lookup name with
  | none => []
  | some module_dict =>
    (moduleKeys cfg module_dict).filterMap (fun key =>
      (module_dict.lookup key).map (fun obj =>
        ⟨JSON.str name, JSON.str key, JSON.str obj.typeName,
         JSON.int obj.domisize⟩))

/-- The full scan loop of `Recorder.trace`: entries of every configured
module, concatenated in configuration order. -/
def collectEntries (cfg : Config) (env : Env) : List RecordEntry :=
  (cfg.get_modules).flatMap (fun name => moduleEntries cfg env name)

/-- A cache operation performed during retrieval (`memcache.get` or
`memcache.get_multi`). -/
inductive CacheOp where
  | getOp (key : String)
  | getMultiOp (keys : List String) (keyPre : String)
deriving DecidableEq

/-- The shared memcache state reachable by this module: the counter stored
at `INDEX_KEY` and the serialized snapshots keyed by
`RECORD_PREFIX + str(index)`.  Record keys never collide with the counter
key, so the two live in separate components. -/
structure Cache where
  counter : Option Int
  records : List (String × JSON)

/-- Retrieval failure: `records[key]` raising `KeyError` for an absent
candidate (the spec's `MissingSnapshotError`). -/
inductive RecErr where
  | missingSnapshot
deriving DecidableEq

/-- Python `xrange(a, b)`. -/
def xrange (a b : Int) : List Int :=
  (List.range (b - a).toNat).map (fun (i : Nat) => a + (i : Int))

/-- The candidate-index list built by `get_raw_records`:
`['%i' % (curr_index - i) for i in xrange(offset, limit)]` after the
reassignment `if curr_index < limit: limit = curr_index`. -/
def candidateIndices (curr_index limit offset : Int) : List Int :=
  let lim := if curr_index < limit then curr_index else limit
  (xrange offset lim).map (fun i => curr_index - i)

/-- `Recorder.get_raw_records`.  The first component logs the cache
operations performed (one `get`, then at most one `get_multi`); the second
is the returned list, or the `KeyError` raised when a candidate key is
absent from the `get_multi` result. -/
def get_raw_records (cfg : Config) (c : Cache) (limit offset : Int) :
    List CacheOp × Except RecErr (List JSON) :=
  match c.counter with
  | none => ([CacheOp.getOp cfg.INDEX_KEY], Except.ok [])
  | some curr_index =>
    if curr_index = 0 then ([CacheOp.getOp cfg.INDEX_KEY], Except.ok [])
    else
      let keys := (candidateIndices curr_index limit offset).map
        (fun i => toString i)
      ([CacheOp.getOp cfg.INDEX_KEY,
        CacheOp.getMultiOp keys cfg.RECORD_PREFIX],
       mapExcept (fun key =>
         match c.records.lookup (cfg.RECORD_PREFIX ++ key) with
         | some v => Except.ok v
         | none => Except.error RecErr.missingSnapshot) keys)

/-- Retrieval failure for `get_records`: either the `KeyError` from
`get_raw_records` or a codec exception from `Record.FromJSON`. -/
inductive RetrieveErr where
  | missingSnapshot
  | codec (e : CodecErr)

/-- `Recorder.get_records`: fetch raw values and decode each one. -/
def get_records (cfg : Config) (c : Cache) (limit offset : Int) :
    List CacheOp × Except RetrieveErr (List Record) :=
  let res := get_raw_records cfg c limit offset
  (res.1,
   match res.2 with
   | Except.error _ => Except.error RetrieveErr.missingSnapshot
   | Except.ok vs =>
     mapExcept (fun v =>
       match Record.FromJSON (some v) with
       | Except.ok r => Except.ok r
       | Except.error e => Except.error (RetrieveErr.codec e)) vs)

/-- The index-allocation step of `Recorder.trace`:
`memcache.add(INDEX_KEY, 1)` succeeds when the counter is absent (index 1);
otherwise `memcache.incr(INDEX_KEY)` returns the incremented value.  The
primitives are assumed atomic and executed sequentially. -/
def allocIndex (c : Cache) : Cache × Int :=
  match c.counter with
  | none => ({ c with counter := some 1 }, 1)
  | some n => ({ c with counter := some (n + 1) }, n + 1)

/-- `N` sequential index allocations, returning the allocated indices in
order. -/
def allocN : Cache → Nat → Cache × List Int
  | c, 0 => (c, [])
  | c, n + 1 =>
    ((allocN (allocIndex c).1 n).1,
     (allocIndex c).2 :: (allocN (allocIndex c).1 n).2)

/-- `memcache.add(key, value)` on the record store: write-once, a no-op when
the key is present (the `False` result is discarded by the caller). -/
def memcacheAdd (c : Cache) (key : String) (value : JSON) : Cache :=
  if (c.records.lookup key).isSome then c
  else { c with records := (key, value) :: c.records }

/-- The storage tail of `Recorder.trace`: allocate an index, then
`memcache.add(RECORD_PREFIX + str(index), payload)`.  The allocated index is
exposed for specification purposes; the Python method returns nothing. -/
def traceStore (cfg : Config) (c : Cache) (payload : JSON) : Cache × Int :=
  let c1 := (allocIndex c).1
  let index := (allocIndex c).2
  (memcacheAdd c1 (cfg.RECORD_PREFIX ++ toString index) payload, index)

/-- `Recorder.trace`: collect entries, encode the record, store it. -/
def trace (cfg : Config) (env : Env) (c : Cache) : Cache :=
  (traceStore cfg c
    (Record.EncodeJSON ⟨EntriesVal.entriesList (collectEntries cfg env)⟩)).1

/-! Concrete values used by witnesses and counterexamples. -/

/-- A concrete configuration (the key names are external configuration; any
values work, these mirror the project's naming). -/
def sampleConfig : Config :=
  ⟨"apptrace_index", "apptrace_record_", ["m"], ["__name__"]⟩

/-- The spec's concrete encode example: entries
`("m1","a","int",10)` and `("m2","b","list",20)`. -/
def sampleSnapshot : Record :=
  ⟨EntriesVal.entriesList
    [⟨JSON.str "m1", JSON.str "a", JSON.str "int", JSON.int 10⟩,
     ⟨JSON.str "m2", JSON.str "b", JSON.str "list", JSON.int 20⟩]⟩

/-- A small valid snapshot. -/
def snapshotA : Record :=
  ⟨EntriesVal.entriesList
    [⟨JSON.str "m", JSON.str "x", JSON.str "int", JSON.int 1⟩]⟩

/-- Another small valid snapshot. -/
def snapshotB : Record :=
  ⟨EntriesVal.entriesList
    [⟨JSON.str "m", JSON.str "y", JSON.str "dict", JSON.int 2⟩]⟩

/-- A cache holding `snapshotA` at index 1 and `snapshotB` at index 2, with
counter value 2. -/
def orderedCache : Cache :=
  ⟨some 2, [("apptrace_record_1", Record.EncodeJSON snapshotA),
            ("apptrace_record_2", Record.EncodeJSON snapshotB)]⟩

/-- The stored-snapshot map of `orderedCache` as a function. -/
def orderedSnap : Int → Record := fun i => if i = 1 then snapshotA else snapshotB

/-- A cache whose counter says two snapshots exist but whose store only
holds index 2 (index 1 evicted). -/
def evictedCache : Cache := ⟨some 2, [("apptrace_record_2", JSON.str "snap2")]⟩

/-- A parsed document whose single entry has every required field present
but `module_name` of the wrong type (an integer). -/
def wrongTypedDoc : JSON :=
  JSON.obj [("entries", JSON.arr
    [JSON.obj [("module_name", JSON.int 5), ("name", JSON.str "a"),
               ("obj_type", JSON.str "b"), ("dominated_size", JSON.int 1)]])]

/-- A cache with no counter key. -/
def emptyCache : Cache := ⟨none, []⟩

/-- A cache whose counter is 1 and whose key for the next index (2) is
already occupied. -/
def occupiedCache : Cache := ⟨some 1, [("apptrace_record_2", JSON.str "old")]⟩

/-- The spec's scan-filtering example: one loaded module `m` with attributes
`X`, `Y` and `__name__`. -/
def scanDict : List (String × PyObj) :=
  [("Y", ⟨"Bar", 50⟩), ("X", ⟨"Foo", 100⟩), ("__name__", ⟨"str", 7⟩)]

/-- The interpreter state for the scan-filtering example. -/
def scanEnv : Env := ⟨[("m", scanDict)]⟩

/-! Helper lemmas. -/

theorem mapExcept_eq_ok {α β ε : Type} (f : α → Except ε β) (g : α → β) :
    ∀ l : List α, (∀ a ∈ l, f a = Except.ok (g a)) →
      mapExcept f l = Except.ok (l.map g) := by
  intro l
  induction l with
  | nil => intro _; rfl
  | cons a l ih =>
    intro h
    have ha := h a (List.mem_cons_self a l)
    have hl := ih (fun x hx => h x (List.mem_cons_of_mem a hx))
    simp [mapExcept, ha, hl]

theorem mapExcept_map {α γ β ε : Type} (f : γ → Except ε β) (g : α → γ)
    (l : List α) :
    mapExcept f (l.map g) = mapExcept (fun a => f (g a)) l := by
  induction l with
  | nil => rfl
  | cons a l ih => simp [mapExcept, ih]

theorem mapExcept_isOk {α β ε : Type} (f : α → Except ε β) (l : List α) :
    (mapExcept f l).isOk = l.all (fun a => (f a).isOk) := by
  induction l with
  | nil => rfl
  | cons a l ih =>
    simp only [List.all_cons, ← ih]
    cases hfa : f a with
    | error e => simp [mapExcept, hfa, Except.isOk, Except.toBool]
    | ok b =>
      cases hml : mapExcept f l with
      | error e => simp [mapExcept, hfa, hml, Except.isOk, Except.toBool]
      | ok bs => simp [mapExcept, hfa, hml, Except.isOk, Except.toBool]

theorem mapExcept_error_missing {α β : Type} (f : α → Except RecErr β)
    (l : List α) (a : α) (ha : a ∈ l)
    (he : f a = Except.error RecErr.missingSnapshot) :
    mapExcept f l = Except.error RecErr.missingSnapshot := by
  induction l with
  | nil => cases ha
  | cons x xs ih =>
    rcases List.mem_cons.mp ha with rfl | hmem
    · simp [mapExcept, he]
    · cases hfx : f x with
      | error e => cases e; simp [mapExcept, hfx]
      | ok b => simp [mapExcept, hfx, ih hmem]

theorem charListLe_trans : ∀ (a b c : List Char),
    charListLe a b = true → charListLe b c = true → charListLe a c = true := by
  intro a
  induction a with
  | nil => intro b c _ _; rfl
  | cons x xs ih =>
    intro b c hab hbc
    cases b with
    | nil => exact absurd hab (by simp [charListLe])
    | cons y ys =>
      cases c with
      | nil => exact absurd hbc (by simp [charListLe])
      | cons z zs =>
        simp only [charListLe] at hab hbc ⊢
        split_ifs at hab hbc ⊢ <;>
          first
            | rfl
            | omega
            | (exact ih ys zs hab hbc)

theorem charListLe_total : ∀ (a b : List Char),
    charListLe a b = true ∨ charListLe b a = true := by
  intro a
  induction a with
  | nil => intro b; left; rfl
  | cons x xs ih =>
    intro b
    cases b with
    | nil => right; rfl
    | cons y ys =>
      rcases Nat.lt_trichotomy x.toNat y.toNat with h | h | h
      · left; simp [charListLe, h]
      · have hxy : ¬ x.toNat < y.toNat := by omega
        have hyx : ¬ y.toNat < x.toNat := by omega
        rcases ih ys with hle | hle
        · left; simp [charListLe, hxy, hyx, hle]
        · right; simp [charListLe, hxy, hyx, hle]
      · right; simp [charListLe, h]

instance : IsTrans String pyStrLeP :=
  ⟨fun a b c => charListLe_trans a.data b.data c.data⟩

instance : IsTotal String pyStrLeP :=
  ⟨fun a b => charListLe_total a.data b.data⟩

theorem lookup_isSome_of_mem_fst {β : Type} {l : List (String × β)} {a : String}
    (h : a ∈ l.map Prod.fst) : ∃ b, l.lookup a = some b := by
  induction l with
  | nil => cases h
  | cons x xs ih =>
    obtain ⟨k, v⟩ := x
    by_cases hak : a = k
    · subst hak
      exact ⟨v, by simp [List.lookup]⟩
    · simp only [List.map_cons, List.mem_cons] at h
      rcases h with h | h
      · exact absurd h hak
      · rcases ih h with ⟨b, hb⟩
        refine ⟨b, ?_⟩
        have hbeq : (a == k) = false := by simp [hak]
        simp [List.lookup, hbeq, hb]

theorem decodeEntryJSON_reprJSON (e : RecordEntry) :
    decodeEntryJSON (RecordEntry.reprJSON e) = Except.ok e := rfl

theorem FromJSONDoc_encode (es : List RecordEntry) :
    Record.FromJSONDoc (Record.EncodeJSON ⟨EntriesVal.entriesList es⟩) =
      Except.ok ⟨EntriesVal.entriesList es⟩ := by
  show Record.FromJSONDoc
      (JSON.obj [("entries", JSON.arr (es.map RecordEntry.reprJSON))]) = _
  have h1 : mapExcept decodeEntryJSON (es.map RecordEntry.reprJSON) =
      Except.ok es := by
    rw [mapExcept_map]
    have h := mapExcept_eq_ok
      (fun a => decodeEntryJSON (RecordEntry.reprJSON a)) id es
      (fun a _ => decodeEntryJSON_reprJSON a)
    simpa using h
  simp [Record.FromJSONDoc, Record.make_value, h1]

theorem FromJSON_encode_valid (r : Record) (h : validSnapshot r = true) :
    Record.FromJSON (some (Record.EncodeJSON r)) = Except.ok r := by
  obtain ⟨entries⟩ := r
  cases entries with
  | raw j => simp [validSnapshot] at h
  | entriesList es => exact FromJSONDoc_encode es

theorem mkRecordEntry_isOk (kvs : List (String × JSON)) :
    (mkRecordEntry kvs).isOk =
      ((kvs.lookup "module_name").isSome && (kvs.lookup "name").isSome &&
        (kvs.lookup "obj_type").isSome && (kvs.lookup "dominated_size").isSome &&
        (kvs.length == 4)) := by
  cases h1 : kvs.lookup "module_name" with
  | none => simp [mkRecordEntry, h1, Except.isOk, Except.toBool]
  | some m =>
    cases h2 : kvs.lookup "name" with
    | none => simp [mkRecordEntry, h1, h2, Except.isOk, Except.toBool]
    | some nm =>
      cases h3 : kvs.lookup "obj_type" with
      | none => simp [mkRecordEntry, h1, h2, h3, Except.isOk, Except.toBool]
      | some t =>
        cases h4 : kvs.lookup "dominated_size" with
        | none => simp [mkRecordEntry, h1, h2, h3, h4, Except.isOk, Except.toBool]
        | some d =>
          by_cases hl : kvs.length = 4
          · simp [mkRecordEntry, h1, h2, h3, h4, hl, Except.isOk, Except.toBool]
          · simp [mkRecordEntry, h1, h2, h3, h4, hl, Except.isOk, Except.toBool]

theorem decodeEntryJSON_isOk (it : JSON) :
    (decodeEntryJSON it).isOk = entryShapeOK it := by
  cases it with
  | obj kvs =>
    have : decodeEntryJSON (JSON.obj kvs) = mkRecordEntry kvs := rfl
    rw [this, mkRecordEntry_isOk]
    rfl
  | str s => rfl
  | int n => rfl
  | arr l => rfl

theorem make_value_isOk (v : JSON) :
    (Record.make_value v).isOk =
      (match v with
       | JSON.arr items => items.all entryShapeOK
       | _ => true) := by
  cases v with
  | arr items =>
    have h := mapExcept_isOk decodeEntryJSON items
    simp only [decodeEntryJSON_isOk] at h
    simp only [Record.make_value]
    cases hm : mapExcept decodeEntryJSON items with
    | error e => rw [hm] at h; exact h
    | ok es => rw [hm] at h; exact h
  | str s => rfl
  | int n => rfl
  | obj kvs => rfl

theorem mkRecordEntry_ne_parse (kvs : List (String × JSON)) :
    mkRecordEntry kvs ≠ Except.error CodecErr.parseError := by
  unfold mkRecordEntry
  cases kvs.lookup "module_name" <;> cases kvs.lookup "name" <;>
    cases kvs.lookup "obj_type" <;> cases kvs.lookup "dominated_size" <;>
    simp <;> split_ifs <;> simp

theorem decodeEntryJSON_ne_parse (it : JSON) :
    decodeEntryJSON it ≠ Except.error CodecErr.parseError := by
  cases it with
  | obj kvs => exact mkRecordEntry_ne_parse kvs
  | str s => simp [decodeEntryJSON, make_args]
  | int n => simp [decodeEntryJSON, make_args]
  | arr l => simp [decodeEntryJSON, make_args]

theorem mapExcept_schema_only {α β : Type} (f : α → Except CodecErr β)
    (hf : ∀ a, f a ≠ Except.error CodecErr.parseError) (l : List α) :
    mapExcept f l ≠ Except.error CodecErr.parseError := by
  induction l with
  | nil => simp [mapExcept]
  | cons a l ih =>
    cases hfa : f a with
    | error e =>
      cases e
      · exact absurd hfa (hf a)
      · simp [mapExcept, hfa]
    | ok b =>
      cases hml : mapExcept f l with
      | error e =>
        cases e
        · exact absurd hml ih
        · simp [mapExcept, hfa, hml]
      | ok bs => simp [mapExcept, hfa, hml]

theorem make_value_ne_parse (v : JSON) :
    Record.make_value v ≠ Except.error CodecErr.parseError := by
  cases v with
  | arr items =>
    simp only [Record.make_value]
    cases hm : mapExcept decodeEntryJSON items with
    | error e =>
      cases e
      · exact absurd hm
          (mapExcept_schema_only decodeEntryJSON decodeEntryJSON_ne_parse items)
      · simp
    | ok es => simp
  | str s => simp [Record.make_value]
  | int n => simp [Record.make_value]
  | obj kvs => simp [Record.make_value]

theorem FromJSONDoc_ne_parse (j : JSON) :
    Record.FromJSONDoc j ≠ Except.error CodecErr.parseError := by
  cases j with
  | str s => simp [Record.FromJSONDoc]
  | int n => simp [Record.FromJSONDoc]
  | arr items => simp [Record.FromJSONDoc]
  | obj kvs =>
    rcases kvs with _ | ⟨⟨k, v⟩, rest⟩
    · simp [Record.FromJSONDoc]
    rcases rest with _ | ⟨x, rest2⟩
    · by_cases hk : k = "entries"
      · subst hk
        simp only [Record.FromJSONDoc, if_pos rfl]
        cases hm : Record.make_value v with
        | error e =>
          cases e
          · exact absurd hm (make_value_ne_parse v)
          · simp
        | ok ev => simp
      · simp [Record.FromJSONDoc, hk]
    · simp [Record.FromJSONDoc]

theorem FromJSONDoc_isOk (j : JSON) :
    (Record.FromJSONDoc j).isOk = schemaOK j := by
  cases j with
  | str s => rfl
  | int n => rfl
  | arr items => rfl
  | obj kvs =>
    rcases kvs with _ | ⟨⟨k, v⟩, rest⟩
    · rfl
    rcases rest with _ | ⟨x, rest2⟩
    · by_cases hk : k = "entries"
      · subst hk
        simp only [Record.FromJSONDoc, if_pos rfl, schemaOK]
        have h := make_value_isOk v
        cases hm : Record.make_value v with
        | error e =>
          rw [hm] at h
          simpa [Except.isOk, Except.toBool] using h
        | ok ev =>
          rw [hm] at h
          simpa [Except.isOk, Except.toBool] using h
      · have hb : (decide (k = "entries")) = false := by simp [hk]
        simp [Record.FromJSONDoc, hk, schemaOK, hb, Except.isOk, Except.toBool]
    · rfl

theorem mem_xrange {a b i : Int} : i ∈ xrange a b ↔ a ≤ i ∧ i < b := by
  unfold xrange
  rw [List.mem_map]
  constructor
  · rintro ⟨j, hj, rfl⟩
    rw [List.mem_range] at hj
    omega
  · intro h
    refine ⟨(i - a).toNat, ?_, ?_⟩
    · rw [List.mem_range]; omega
    · omega

theorem candidate_lim_eq (n limit : Int) :
    (if n < limit then n else limit) = min limit n := by
  split_ifs with h <;> omega

theorem mem_candidateIndices {n limit offset k : Int} :
    k ∈ candidateIndices n limit offset ↔
      ∃ i : Int, offset ≤ i ∧ i < min limit n ∧ k = n - i := by
  simp only [candidateIndices]
  rw [candidate_lim_eq]
  simp only [List.mem_map, mem_xrange]
  constructor
  · rintro ⟨i, ⟨h1, h2⟩, rfl⟩
    exact ⟨i, h1, h2, rfl⟩
  · rintro ⟨i, h1, h2, rfl⟩
    exact ⟨i, ⟨h1, h2⟩, rfl⟩

theorem candidateIndices_length (n limit offset : Int) :
    (candidateIndices n limit offset).length = (min limit n - offset).toNat := by
  simp only [candidateIndices]
  rw [candidate_lim_eq, List.length_map]
  unfold xrange
  rw [List.length_map, List.length_range]

theorem candidateIndices_spec_form (n limit offset : Int) :
    candidateIndices n limit offset =
      (xrange offset (min limit n)).map (fun i => n - i) := by
  simp only [candidateIndices]
  rw [candidate_lim_eq]

theorem get_raw_records_counter_some (cfg : Config) (c : Cache)
    (n limit offset : Int) (hc : c.counter = some n) (hn : n ≠ 0) :
    get_raw_records cfg c limit offset =
      ([CacheOp.getOp cfg.INDEX_KEY,
        CacheOp.getMultiOp
          ((candidateIndices n limit offset).map (fun i => toString i))
          cfg.RECORD_PREFIX],
       mapExcept (fun key =>
         match c.records.lookup (cfg.RECORD_PREFIX ++ key) with
         | some v => Except.ok v
         | none => Except.error RecErr.missingSnapshot)
         ((candidateIndices n limit offset).map (fun i => toString i))) := by
  simp only [get_raw_records, hc]
  rw [if_neg hn]

theorem get_raw_records_all_present (cfg : Config) (c : Cache)
    (n limit offset : Int) (v : Int → JSON)
    (hc : c.counter = some n) (hn : n ≠ 0)
    (hall : ∀ i ∈ candidateIndices n limit offset,
      c.records.lookup (cfg.RECORD_PREFIX ++ toString i) = some (v i)) :
    (get_raw_records cfg c limit offset).2 =
      Except.ok ((candidateIndices n limit offset).map v) := by
  rw [get_raw_records_counter_some cfg c n limit offset hc hn]
  dsimp only
  rw [mapExcept_map]
  exact mapExcept_eq_ok _ v _ (fun i hi => by rw [hall i hi])

theorem get_raw_records_missing (cfg : Config) (c : Cache)
    (n limit offset : Int) (hc : c.counter = some n) (hn : n ≠ 0)
    (i : Int) (hi : i ∈ candidateIndices n limit offset)
    (hnone : c.records.lookup (cfg.RECORD_PREFIX ++ toString i) = none) :
    (get_raw_records cfg c limit offset).2 =
      Except.error RecErr.missingSnapshot := by
  rw [get_raw_records_counter_some cfg c n limit offset hc hn]
  dsimp only
  rw [mapExcept_map]
  exact mapExcept_error_missing _ _ i hi (by rw [hnone])

theorem allocN_some : ∀ (N : Nat) (c : Cache) (m : Int), c.counter = some m →
    (allocN c N).2 = (List.range N).map (fun (j : Nat) => m + 1 + (j : Int)) := by
  intro N
  induction N with
  | zero => intro c m _; rfl
  | succ n ih =>
    intro c m hc
    have h1 : (allocIndex c).1.counter = some (m + 1) := by
      simp [allocIndex, hc]
    have h2 : (allocIndex c).2 = m + 1 := by
      simp [allocIndex, hc]
    simp only [allocN]
    rw [h2, ih (allocIndex c).1 (m + 1) h1]
    rw [List.range_succ_eq_map]
    simp only [List.map_cons, List.map_map]
    congr 1
    · simp
    · apply List.map_congr_left
      intro j hj
      simp only [Function.comp_apply]
      push_cast
      ring

/-! Claim theorems. -/

/-- C1: for every valid Snapshot (a `Record` whose entries all carry string
`module_name`, `name`, `obj_type` and a non-negative integer
`dominated_size`), decoding the encoding yields a structurally equal
Snapshot: same entries, same order, identical field values. -/
theorem c1_decode_encode_roundtrip (r : Record) (h : validSnapshot r = true) :
    Record.FromJSON (some (Record.EncodeJSON r)) = Except.ok r :=
  FromJSON_encode_valid r h

/-- Witness for C1 at the spec's concrete two-entry example snapshot. -/
theorem c1_decode_encode_roundtrip_witness :
    validSnapshot sampleSnapshot = true ∧
      Record.FromJSON (some (Record.EncodeJSON sampleSnapshot)) =
        Except.ok sampleSnapshot :=
  ⟨by decide, c1_decode_encode_roundtrip sampleSnapshot (by decide)⟩

/-- C2: for a present counter value `n ≥ 1`, `get_raw_records` computes the
effective limit `min limit n`, builds exactly the candidate list
`[n - i for i in xrange(offset, effectiveLimit)]` in that order, requests
exactly those keys from `get_multi`, and the number of candidates is
`effectiveLimit - offset` (empty when `offset ≥ effectiveLimit`), not
`limit`. -/
theorem c2_candidate_list (n limit offset : Int) (hn : 1 ≤ n) :
    candidateIndices n limit offset =
        (xrange offset (min limit n)).map (fun i => n - i)
    ∧ (candidateIndices n limit offset).length = (min limit n - offset).toNat
    ∧ (min limit n ≤ offset → candidateIndices n limit offset = [])
    ∧ ∀ (cfg : Config) (c : Cache), c.counter = some n →
        (get_raw_records cfg c limit offset).1 =
          [CacheOp.getOp cfg.INDEX_KEY,
           CacheOp.getMultiOp
             ((candidateIndices n limit offset).map (fun i => toString i))
             cfg.RECORD_PREFIX] := by
  refine ⟨candidateIndices_spec_form n limit offset,
    candidateIndices_length n limit offset, ?_, ?_⟩
  · intro h
    have hlen := candidateIndices_length n limit offset
    have h0 : (min limit n - offset).toNat = 0 := by omega
    rw [h0] at hlen
    exact List.length_eq_zero.mp hlen
  · intro cfg c hc
    rw [get_raw_records_counter_some cfg c n limit offset hc (by omega)]

/-- Witness for C2 at `n = 5`, `limit = 3`, `offset = 1`. -/
theorem c2_candidate_list_witness :
    (candidateIndices 5 3 1 =
      (xrange 1 (min 3 5)).map (fun i => (5 : Int) - i))
    ∧ (candidateIndices 5 3 1).length = ((min 3 5 : Int) - 1).toNat
    ∧ (get_raw_records sampleConfig ⟨some 5, []⟩ 3 1).1 =
        [CacheOp.getOp sampleConfig.INDEX_KEY,
         CacheOp.getMultiOp
           ((candidateIndices 5 3 1).map (fun i => toString i))
           sampleConfig.RECORD_PREFIX] := by
  have h := c2_candidate_list 5 3 1 (by decide)
  exact ⟨h.1, h.2.1, h.2.2.2 sampleConfig ⟨some 5, []⟩ rfl⟩

/-- C3: from a cache with no counter key (and atomic, sequential
`add`/`incr` with no eviction), the first allocation returns 1 and `N`
sequential allocations return exactly `1, 2, ..., N`, with no repeats and
no gaps. -/
theorem c3_sequential_allocation (c : Cache) (hc : c.counter = none)
    (N : Nat) :
    (allocIndex c).2 = 1
    ∧ (allocN c N).2 = (List.range N).map (fun (j : Nat) => (j : Int) + 1)
    ∧ ((allocN c N).2).Nodup := by
  have h2 : (allocN c N).2 =
      (List.range N).map (fun (j : Nat) => (j : Int) + 1) := by
    cases N with
    | zero => rfl
    | succ n =>
      have ha1 : (allocIndex c).1.counter = some 1 := by simp [allocIndex, hc]
      have ha2 : (allocIndex c).2 = 1 := by simp [allocIndex, hc]
      simp only [allocN]
      rw [ha2, allocN_some n (allocIndex c).1 1 ha1]
      rw [List.range_succ_eq_map]
      simp only [List.map_cons, List.map_map]
      congr 1
      apply List.map_congr_left
      intro a ha
      simp only [Function.comp_apply]
      omega
  refine ⟨by simp [allocIndex, hc], h2, ?_⟩
  rw [h2]
  exact List.Nodup.map (fun a b hab => by omega) (List.nodup_range N)

/-- Witness for C3: three allocations from the empty cache. -/
theorem c3_sequential_allocation_witness :
    (allocIndex emptyCache).2 = 1
    ∧ (allocN emptyCache 3).2 =
        (List.range 3).map (fun (j : Nat) => (j : Int) + 1)
    ∧ ((allocN emptyCache 3).2).Nodup :=
  c3_sequential_allocation emptyCache rfl 3

/-- C5 counterexample: with counter 2 and only index 2 present, the code
raises for the retrieval as a whole (the present candidate's value is part
of no returned list, contrary to the claim that present candidates' values
are returned while the absent position signals an error). -/
theorem c5_missing_counterexample :
    (get_raw_records sampleConfig evictedCache 2 0).2 =
        Except.error RecErr.missingSnapshot
    ∧ evictedCache.records.lookup
        (sampleConfig.RECORD_PREFIX ++ toString (2 : Int)) =
          some (JSON.str "snap2") :=
  ⟨rfl, rfl⟩

/-- C5 (amended): a candidate key absent from the `get_multi` result makes
the whole retrieval signal `MissingSnapshotError` (no values are returned
for the present candidates); when every candidate is present, the values
are returned in candidate-list order. -/
theorem c5_missing_policy (cfg : Config) (c : Cache) (n limit offset : Int)
    (hc : c.counter = some n) (hn : n ≠ 0) :
    ((∃ i ∈ candidateIndices n limit offset,
        c.records.lookup (cfg.RECORD_PREFIX ++ toString i) = none) →
      (get_raw_records cfg c limit offset).2 =
        Except.error RecErr.missingSnapshot)
    ∧ ∀ (v : Int → JSON),
        (∀ i ∈ candidateIndices n limit offset,
          c.records.lookup (cfg.RECORD_PREFIX ++ toString i) = some (v i)) →
        (get_raw_records cfg c limit offset).2 =
          Except.ok ((candidateIndices n limit offset).map v) := by
  constructor
  · rintro ⟨i, hi, hnone⟩
    exact get_raw_records_missing cfg c n limit offset hc hn i hi hnone
  · intro v hall
    exact get_raw_records_all_present cfg c n limit offset v hc hn hall

/-- Witness for C5 (amended) on the partially evicted cache. -/
theorem c5_missing_policy_witness :
    (get_raw_records sampleConfig evictedCache 2 0).2 =
      Except.error RecErr.missingSnapshot :=
  (c5_missing_policy sampleConfig evictedCache 2 2 0 rfl (by decide)).1
    ⟨1, by decide, rfl⟩

/-- C6 counterexample: a parsed document whose entry has all four required
fields but a `module_name` of the wrong type (an integer) decodes
successfully — the code performs no type check, contrary to the claim that
a wrongly typed field fails with `SchemaError`. -/
theorem c6_error_taxonomy_counterexample :
    Record.FromJSON (some wrongTypedDoc) =
      Except.ok ⟨EntriesVal.entriesList
        [⟨JSON.int 5, JSON.str "a", JSON.str "b", JSON.int 1⟩]⟩ := rfl

/-- C6 (amended): decode fails with `ParseError` exactly on unparseable
text; on a parsed document it fails (always with `SchemaError`) exactly
when the document is not an object with the single key `entries`, or the
`entries` value is a list containing an item that is not an object with
exactly the four required field names.  Field values of the wrong type are
accepted unchecked, and a non-list `entries` value is accepted as-is. -/
theorem c6_error_taxonomy (j : JSON) :
    (Record.FromJSON (some j)).isOk = schemaOK j
    ∧ (schemaOK j = false →
        Record.FromJSON (some j) = Except.error CodecErr.schemaError)
    ∧ Record.FromJSON none = Except.error CodecErr.parseError := by
  have hok : (Record.FromJSON (some j)).isOk = schemaOK j := FromJSONDoc_isOk j
  refine ⟨hok, ?_, rfl⟩
  intro hs
  cases hd : Record.FromJSONDoc j with
  | ok r =>
    rw [show Record.FromJSON (some j) = Record.FromJSONDoc j from rfl, hd]
      at hok
    simp only [Except.isOk, Except.toBool] at hok
    rw [hs] at hok
    cases hok
  | error e =>
    cases e
    · exact absurd hd (FromJSONDoc_ne_parse j)
    · rw [show Record.FromJSON (some j) = Record.FromJSONDoc j from rfl, hd]

/-- Witness for C6 (amended) at a non-object document. -/
theorem c6_error_taxonomy_witness :
    schemaOK (JSON.int 7) = false ∧
      Record.FromJSON (some (JSON.int 7)) =
        Except.error CodecErr.schemaError :=
  ⟨rfl, (c6_error_taxonomy (JSON.int 7)).2.1 rfl⟩

/-- C8: when the record key for the allocated index is already occupied,
the store step of `trace` is a silent no-op: the record store is left
completely unchanged (the model is total, mirroring that `memcache.add`
raises nothing and its `False` result is discarded), and the bytes
previously stored under that key are still there afterwards. -/
theorem c8_write_once (cfg : Config) (c : Cache) (payload old : JSON)
    (hocc : c.records.lookup
        (cfg.RECORD_PREFIX ++ toString (allocIndex c).2) = some old) :
    ((traceStore cfg c payload).1).records = c.records
    ∧ ((traceStore cfg c payload).1).records.lookup
        (cfg.RECORD_PREFIX ++ toString (allocIndex c).2) = some old := by
  have hrec : (allocIndex c).1.records = c.records := by
    cases hcc : c.counter <;> simp [allocIndex, hcc]
  have hcond : (((allocIndex c).1).records.lookup
      (cfg.RECORD_PREFIX ++ toString (allocIndex c).2)).isSome = true := by
    rw [hrec, hocc]
    rfl
  have h1 : ((traceStore cfg c payload).1).records = c.records := by
    simp only [traceStore, memcacheAdd]
    rw [if_pos hcond]
    exact hrec
  exact ⟨h1, by rw [h1, hocc]⟩

/-- Witness for C8: the cache whose next index key is occupied. -/
theorem c8_write_once_witness :
    ((traceStore sampleConfig occupiedCache (JSON.str "new")).1).records =
        occupiedCache.records
    ∧ ((traceStore sampleConfig occupiedCache (JSON.str "new")).1).records.lookup
        (sampleConfig.RECORD_PREFIX ++ toString (allocIndex occupiedCache).2) =
          some (JSON.str "old") :=
  c8_write_once sampleConfig occupiedCache (JSON.str "new")
    (JSON.str "old") rfl

/-- C9: on a cache with no counter key, `get_raw_records` returns the empty
sequence after the single counter read, performing no multi-key read. -/
theorem c9_no_counter (cfg : Config) (c : Cache) (limit offset : Int)
    (hc : c.counter = none) :
    get_raw_records cfg c limit offset =
      ([CacheOp.getOp cfg.INDEX_KEY], Except.ok [])
    ∧ ∀ (ks : List String) (p : String),
        CacheOp.getMultiOp ks p ∉ (get_raw_records cfg c limit offset).1 := by
  have h : get_raw_records cfg c limit offset =
      ([CacheOp.getOp cfg.INDEX_KEY], Except.ok []) := by
    simp [get_raw_records, hc]
  refine ⟨h, ?_⟩
  intro ks p hmem
  rw [h] at hmem
  simp at hmem

/-- Witness for C9 on the empty cache with the default paging arguments. -/
theorem c9_no_counter_witness :
    get_raw_records sampleConfig emptyCache 100 0 =
      ([CacheOp.getOp sampleConfig.INDEX_KEY], Except.ok []) :=
  (c9_no_counter sampleConfig emptyCache 100 0 rfl).1

/-- C10: for counter value `n ≥ 1` and non-negative offset, every candidate
index lies in `[n - min limit n + 1, n - offset]`, so every fetched index
is positive — index 0 or a negative index is never requested. -/
theorem c10_candidates_positive (n limit offset : Int) (hn : 1 ≤ n)
    (ho : 0 ≤ offset) :
    ∀ k ∈ candidateIndices n limit offset,
      1 ≤ k ∧ n - min limit n + 1 ≤ k ∧ k ≤ n - offset := by
  intro k hk
  rw [mem_candidateIndices] at hk
  obtain ⟨i, h1, h2, rfl⟩ := hk
  omega

/-- Witness for C10 at `n = 5`, `limit = 3`, `offset = 1`, candidate 4. -/
theorem c10_candidates_positive_witness :
    1 ≤ (4 : Int) ∧ (5 : Int) - min 3 5 + 1 ≤ 4 ∧ (4 : Int) ≤ 5 - 1 :=
  c10_candidates_positive 5 3 1 (by decide) (by decide) 4 (by decide)

theorem candidateIndices_all (K : Nat) :
    candidateIndices (K : Int) (K : Int) 0 =
      (List.range K).map (fun (j : Nat) => (K : Int) - (j : Int)) := by
  simp only [candidateIndices]
  rw [candidate_lim_eq, min_self]
  unfold xrange
  rw [sub_zero, Int.toNat_natCast, List.map_map]
  apply List.map_congr_left
  intro j hj
  simp only [Function.comp_apply]
  omega

/-- C4: with counter value `K` and the snapshot encoded by `snap i` stored
under every index `1 ≤ i ≤ K`, `get_records K 0` returns exactly `K`
decoded snapshots, most recent index first: `snap K`, then `snap (K-1)`,
..., down to `snap 1`. -/
theorem c4_most_recent_first (cfg : Config) (c : Cache) (K : Nat)
    (snap : Int → Record)
    (hc : c.counter = some (K : Int))
    (hk : ∀ i : Int, 1 ≤ i → i ≤ (K : Int) →
      c.records.lookup (cfg.RECORD_PREFIX ++ toString i) =
          some (Record.EncodeJSON (snap i))
        ∧ validSnapshot (snap i) = true) :
    (get_records cfg c (K : Int) 0).2 =
      Except.ok ((List.range K).map
        (fun (j : Nat) => snap ((K : Int) - (j : Int))))
    ∧ ((List.range K).map
        (fun (j : Nat) => snap ((K : Int) - (j : Int)))).length = K := by
  refine ⟨?_, by simp⟩
  by_cases hK : (K : Int) = 0
  · have hK0 : K = 0 := by omega
    subst hK0
    simp [get_records, get_raw_records, hc, mapExcept]
  · have hcand : ∀ i ∈ candidateIndices (K : Int) (K : Int) 0,
        c.records.lookup (cfg.RECORD_PREFIX ++ toString i) =
          some (Record.EncodeJSON (snap i)) := by
      intro i hi
      rw [mem_candidateIndices] at hi
      obtain ⟨x, h1, h2, rfl⟩ := hi
      exact (hk ((K : Int) - x) (by omega) (by omega)).1
    have hraw := get_raw_records_all_present cfg c (K : Int) (K : Int) 0
      (fun i => Record.EncodeJSON (snap i)) hc hK hcand
    simp only [get_records]
    rw [hraw]
    show mapExcept (fun v =>
        match Record.FromJSON (some v) with
        | Except.ok r => Except.ok r
        | Except.error e => Except.error (RetrieveErr.codec e))
      ((candidateIndices (K : Int) (K : Int) 0).map
        (fun i => Record.EncodeJSON (snap i))) = _
    rw [mapExcept_map]
    refine Eq.trans (mapExcept_eq_ok _ snap _ ?_) ?_
    · intro i hi
      rw [mem_candidateIndices] at hi
      obtain ⟨x, h1, h2, rfl⟩ := hi
      have hv := (hk ((K : Int) - x) (by omega) (by omega)).2
      have hdec := FromJSON_encode_valid _ hv
      rw [hdec]
    · rw [candidateIndices_all, List.map_map]
      rfl

/-- Witness for C4: two snapshots stored at indices 1 and 2. -/
theorem c4_most_recent_first_witness :
    (get_records sampleConfig orderedCache ((2 : Nat) : Int) 0).2 =
      Except.ok ((List.range 2).map
        (fun (j : Nat) => orderedSnap ((2 : Int) - (j : Int))))
    ∧ ((List.range 2).map
        (fun (j : Nat) => orderedSnap ((2 : Int) - (j : Int)))).length = 2 := by
  have hk : ∀ i : Int, 1 ≤ i → i ≤ ((2 : Nat) : Int) →
      orderedCache.records.lookup
        (sampleConfig.RECORD_PREFIX ++ toString i) =
          some (Record.EncodeJSON (orderedSnap i))
        ∧ validSnapshot (orderedSnap i) = true := by
    intro i h1 h2
    have hcase : i = 1 ∨ i = 2 := by omega
    rcases hcase with rfl | rfl
    · exact ⟨rfl, rfl⟩
    · exact ⟨rfl, rfl⟩
  exact c4_most_recent_first sampleConfig orderedCache 2 orderedSnap rfl hk

theorem moduleEntries_loaded (cfg : Config) (env : Env) (name : String)
    (md : List (String × PyObj))
    (hmd : env.sys_modules.lookup name = some md) :
    moduleEntries cfg env name =
      (moduleKeys cfg md).filterMap (fun key =>
        (md.lookup key).map (fun obj =>
          (⟨JSON.str name, JSON.str key, JSON.str obj.typeName,
            JSON.int obj.domisize⟩ : RecordEntry))) := by
  simp only [moduleEntries, hmd]

theorem filterMap_lookup_names (md : List (String × PyObj)) (name : String) :
    ∀ ks : List String, (∀ k ∈ ks, ∃ obj, md.lookup k = some obj) →
      ((ks.filterMap (fun key => (md.lookup key).map (fun obj =>
          (⟨JSON.str name, JSON.str key, JSON.str obj.typeName,
            JSON.int obj.domisize⟩ : RecordEntry)))).map (fun e => e.name))
        = ks.map JSON.str := by
  intro ks
  induction ks with
  | nil => intro _; rfl
  | cons k ks ih =>
    intro h
    obtain ⟨obj, hobj⟩ := h k (List.mem_cons_self k ks)
    have htail := ih (fun x hx => h x (List.mem_cons_of_mem k hx))
    rw [List.filterMap_cons]
    rw [hobj, Option.map_some']
    simp only [List.map_cons, htail]

theorem mem_filterMap_lookup (md : List (String × PyObj)) (name : String)
    (ks : List String) (e : RecordEntry)
    (he : e ∈ ks.filterMap (fun key => (md.lookup key).map (fun obj =>
        (⟨JSON.str name, JSON.str key, JSON.str obj.typeName,
          JSON.int obj.domisize⟩ : RecordEntry)))) :
    e.module_name = JSON.str name
    ∧ ∃ s obj, e.name = JSON.str s ∧ md.lookup s = some obj
        ∧ e.obj_type = JSON.str obj.typeName
        ∧ e.dominated_size = JSON.int obj.domisize := by
  rw [List.mem_filterMap] at he
  obtain ⟨k, hk, hfk⟩ := he
  cases hobj : md.lookup k with
  | none => rw [hobj] at hfk; cases hfk
  | some obj =>
    rw [hobj, Option.map_some'] at hfk
    obtain rfl := Option.some.inj hfk
    exact ⟨rfl, k, obj, rfl, hobj, rfl, rfl⟩

/-- C7: for every configured module list and ignore-set, the scan produces,
for each loaded module, exactly one entry per distinct top-level attribute
name outside the ignore-set, iterated in ascending (code-point
lexicographic) order of attribute name, with each entry built from the
module name, the attribute's object type name and its dominated size; a
configured module that is not loaded contributes zero entries (and is not
an error); `trace`'s entry list concatenates the per-module lists in
configuration order. -/
theorem c7_scan_filtering (cfg : Config) (env : Env) (name : String) :
    (env.sys_modules.lookup name = none → moduleEntries cfg env name = [])
    ∧ (∀ md, env.sys_modules.lookup name = some md →
        ∃ ks : List String,
          (moduleEntries cfg env name).map (fun e => e.name) = ks.map JSON.str
          ∧ List.Sorted pyStrLeP ks
          ∧ ks.Nodup
          ∧ (∀ s, s ∈ ks ↔ s ∈ md.map Prod.fst ∧ s ∉ cfg.IGNORE_NAMES)
          ∧ ∀ e ∈ moduleEntries cfg env name,
              e.module_name = JSON.str name
              ∧ ∃ s obj, e.name = JSON.str s
                  ∧ md.lookup s = some obj
                  ∧ e.obj_type = JSON.str obj.typeName
                  ∧ e.dominated_size = JSON.int obj.domisize)
    ∧ collectEntries cfg env =
        (cfg.get_modules).flatMap (fun nm => moduleEntries cfg env nm) := by
  refine ⟨?_, ?_, rfl⟩
  · intro h
    simp [moduleEntries, h]
  · intro md hmd
    have hperm : (moduleKeys cfg md).Perm
        (((md.map Prod.fst).dedup).filter
          (fun k => decide (k ∉ cfg.IGNORE_NAMES))) :=
      List.perm_insertionSort pyStrLeP _
    have hmem_ks : ∀ s, s ∈ moduleKeys cfg md ↔
        (s ∈ md.map Prod.fst ∧ s ∉ cfg.IGNORE_NAMES) := by
      intro s
      rw [hperm.mem_iff, List.mem_filter, List.mem_dedup, decide_eq_true_eq]
    have hlookup : ∀ k ∈ moduleKeys cfg md, ∃ obj, md.lookup k = some obj :=
      fun k hk => lookup_isSome_of_mem_fst ((hmem_ks k).mp hk).1
    have hent := moduleEntries_loaded cfg env name md hmd
    refine ⟨moduleKeys cfg md, ?_, ?_, ?_, hmem_ks, ?_⟩
    · rw [hent]
      exact filterMap_lookup_names md name (moduleKeys cfg md) hlookup
    · exact List.sorted_insertionSort pyStrLeP _
    · exact (hperm.symm.nodup
        (List.Nodup.filter _ (List.nodup_dedup (md.map Prod.fst))))
    · intro e he
      rw [hent] at he
      exact mem_filterMap_lookup md name (moduleKeys cfg md) e he

/-- Witness for C7 at the spec's scan-filtering example: module `m` with
attributes `X`, `Y`, `__name__` and the ignore-set containing `__name__`. -/
theorem c7_scan_filtering_witness :
    ∃ ks : List String,
      (moduleEntries sampleConfig scanEnv "m").map (fun e => e.name) =
          ks.map JSON.str
      ∧ List.Sorted pyStrLeP ks
      ∧ ks.Nodup
      ∧ (∀ s, s ∈ ks ↔
          s ∈ scanDict.map Prod.fst ∧ s ∉ sampleConfig.IGNORE_NAMES)
      ∧ ∀ e ∈ moduleEntries sampleConfig scanEnv "m",
          e.module_name = JSON.str "m"
          ∧ ∃ s obj, e.name = JSON.str s ∧ scanDict.lookup s = some obj
              ∧ e.obj_type = JSON.str obj.typeName
              ∧ e.dominated_size = JSON.int obj.domisize :=
  (c7_scan_filtering sampleConfig scanEnv "m").2.1 scanDict rfl
